import Mathlib

/-!
Shallow embedding of the singly-linked list of src/src/lib.rs.

A list state is the chain of values reachable from `head` (modelled as a
Lean `List`) together with the stored element counter `len` (the `len: usize`
field).  The counter is carried separately and updated exactly where the Rust
code updates it, so that any divergence between the counter and the chain is
visible in the model.

Rust `usize` arithmetic that can panic (subtraction underflow in loop bounds)
and `Option::unwrap` on `None` are modelled by returning `none` from the
embedded operation: `none` means the Rust call panics.  Operations that can
never panic return their result directly.
-/

structure LinkedList (α : Type) where
  head : List α
  len : Nat
deriving DecidableEq, Repr

namespace LinkedList

variable {α : Type}

/-- `LinkedList::new` (lib.rs 46-49): empty chain, counter 0. -/
def new : LinkedList α :=
  ⟨[], 0⟩

/-- `LinkedList::append` (lib.rs 51-60): walk the next-links to the terminal
`None` slot, place the fresh node there, increment `len`. -/
def append (l : LinkedList α) (data : α) : LinkedList α :=
  ⟨l.head ++ [data], l.len + 1⟩

/-- `LinkedList::prepend` (lib.rs 62-71): the fresh node takes the old head as
its successor and becomes the new head; `len` is incremented. -/
def prepend (l : LinkedList α) (data : α) : LinkedList α :=
  ⟨data :: l.head, l.len + 1⟩

/-- `LinkedList::clear` (lib.rs 73-77): `head = None`, `len = 0`. -/
def clear (_l : LinkedList α) : LinkedList α :=
  ⟨[], 0⟩

/-- `LinkedList::is_empty` (lib.rs 79-81): tests `head.is_none()`, not the
counter. -/
def is_empty (l : LinkedList α) : Bool :=
  l.head.isEmpty

/-- `LinkedList::pop_front` (lib.rs 133-141): `None` and no change on an empty
chain; otherwise detach the head node, return its value, decrement `len`. -/
def pop_front (l : LinkedList α) : Option α × LinkedList α :=
  match l.head with
  | [] => (none, l)
  | x :: rest => (some x, ⟨rest, l.len - 1⟩)

/-- `LinkedList::pop_last` (lib.rs 143-161).  The walk `for _ in 0..len-1`
advances one slot per iteration, breaking early at a `None` slot, so the final
cursor holds the suffix `head.drop (len-1)` of the chain (`List.drop` saturates
exactly as the break does).  `ptr.take().unwrap()` then removes that whole
suffix and panics if the slot is `None`.  With `head` non-empty and `len = 0`
the loop bound `len - 1` underflows (`none` = panic). -/
def pop_last (l : LinkedList α) : Option (Option α × LinkedList α) :=
  match l.head with
  | [] => some (none, l)
  | _ :: _ =>
    if l.len = 1 then some (pop_front l)
    else if l.len = 0 then none
    else
      match l.head.drop (l.len - 1) with
      | [] => none
      | x :: _ => some (some x, ⟨l.head.take (l.len - 1), l.len - 1⟩)

/-- `LinkedList::insert` (lib.rs 163-185).  `index >= len` appends (clamp);
`index == 0` prepends; otherwise the walk `for _ in 0..index-1` advances with
an early `return self` on a `None` slot (reached iff the chain has fewer than
`index - 1` nodes).  After the walk the cursor holds `head.drop (index-1)`;
`ptr.as_deref_mut().unwrap()` panics (`none`) if that slot is `None`, else the
fresh node is spliced behind it and `len` is incremented. -/
def insert (l : LinkedList α) (data : α) (index : Nat) : Option (LinkedList α) :=
  if l.len ≤ index then some (l.append data)
  else if index = 0 then some (l.prepend data)
  else if l.head.length < index - 1 then some l
  else
    match l.head.drop (index - 1) with
    | [] => none
    | y :: rest => some ⟨l.head.take (index - 1) ++ y :: data :: rest, l.len + 1⟩

/-- `LinkedList::remove` (lib.rs 187-208).  Empty chain: no-op.  `index == 0`:
`pop_front` (which decrements `len`).  Otherwise the index is clamped to
`len - 1`; if the clamped index is 0 the loop bound `index - 1` underflows in
debug mode, and in release mode the wrapped loop runs past the chain and the
`unwrap` at line 206 hits `None` — a panic either way (`none`).  For a clamped
index `i ≥ 1` the walk leaves the cursor at `head.drop (i-1)`; line 206 then
unwraps that node and its successor (panicking if either is absent) and splices
the successor out.  The source never decrements `len` on this path. -/
def remove (l : LinkedList α) (index : Nat) : Option (LinkedList α) :=
  match l.head with
  | [] => some l
  | _ :: _ =>
    if index = 0 then some (pop_front l).2
    else
      let i := if l.len ≤ index then l.len - 1 else index
      if i = 0 then none
      else
        match l.head.drop (i - 1) with
        | [] => none
        | [_] => none
        | x :: _ :: rest2 => some ⟨l.head.take (i - 1) ++ x :: rest2, l.len⟩

/-- The loop body of `LinkedList::reverse` (lib.rs 214-219): `ptr` is the
remaining detached chain, the accumulator is the rebuilt `self.head`; each
step moves the front node of the remainder onto the accumulator. -/
def revLoop : List α → List α → List α
  | [], acc => acc
  | x :: rest, acc => revLoop rest (x :: acc)

/-- `LinkedList::reverse` (lib.rs 210-221): no-op when the stored `len` is at
most 1, else the whole chain is taken and relinked front-to-back. -/
def reverse (l : LinkedList α) : LinkedList α :=
  if l.len ≤ 1 then l else ⟨revLoop l.head [], l.len⟩

/-- `Index for LinkedList` (lib.rs 290-304): the loop `for _ in 0..index`
advances with a break at a `None` slot, leaving the cursor at
`head.drop index`; the final `unwrap` panics (`none`) when that slot is
`None`, i.e. when `index` is at or past the end of the chain. -/
def index (l : LinkedList α) (i : Nat) : Option α :=
  match l.head.drop i with
  | [] => none
  | x :: _ => some x

end LinkedList

/-- The borrowing iterator `Iter` (lib.rs 242-244): a cursor on the not yet
visited part of the chain. -/
structure Iter (α : Type) where
  ptr : List α

/-- `Iterator for Iter` (lib.rs 254-264): yield the value under the cursor and
advance it along the next-link, or yield `none` at the end. -/
def Iter.next : Iter α → Option α × Iter α
  | ⟨[]⟩ => (none, ⟨[]⟩)
  | ⟨node :: rest⟩ => (some node, ⟨rest⟩)

/-- `LinkedList::iter` (lib.rs 223-227): a cursor starting at `head`. -/
def LinkedList.iter (l : LinkedList α) : Iter α :=
  ⟨l.head⟩

/-- The values produced by calling `next` until it yields `none`: one value
per remaining node, in link order. -/
def drainFrom : List α → List α
  | [] => []
  | x :: rest => x :: drainFrom rest

/-- Full yield sequence of a borrowing iterator. -/
def Iter.drain (it : Iter α) : List α :=
  drainFrom it.ptr

/-- The consuming iterator `IntoIter` (lib.rs 250-252) wraps the list itself. -/
structure IntoIter (α : Type) where
  ptr : LinkedList α

/-- `Iterator for IntoIter` (lib.rs 278-288): take the head node, make its
successor the new head (the `len` field is not touched), yield the value. -/
def IntoIter.next : IntoIter α → Option α × IntoIter α
  | ⟨⟨[], n⟩⟩ => (none, ⟨⟨[], n⟩⟩)
  | ⟨⟨node :: rest, n⟩⟩ => (some node, ⟨⟨rest, n⟩⟩)

/-- `LinkedList::into_iter` (lib.rs 235-239). -/
def LinkedList.intoIter (l : LinkedList α) : IntoIter α :=
  ⟨l⟩

/-- Full yield sequence of a consuming iterator. -/
def IntoIter.drain (it : IntoIter α) : List α :=
  drainFrom it.ptr.head

/-- `From<Vec<T>> for LinkedList<T>` (lib.rs 343-351): start from `new` and
`append` every element of the vector in order. -/
def LinkedList.fromVec (v : List α) : LinkedList α :=
  v.foldl (fun l data => l.append data) LinkedList.new

/-- `Into<Vec<T>> for LinkedList<T>` (lib.rs 353-361): drain the consuming
iterator, pushing each value in yield order. -/
def LinkedList.intoVec (l : LinkedList α) : List α :=
  l.intoIter.drain

/-- One pass of the `Display` loop (lib.rs 325-337): each node writes its
value, a single space, and then an arrow separator exactly when a successor
exists. -/
def displayLoop (s : α → String) : List α → String
  | [] => ""
  | x :: rest => s x ++ " " ++ (match rest with | [] => "" | _ :: _ => "-> ") ++ displayLoop s rest

/-- `Display for LinkedList` (lib.rs 320-341): the token "None" for an empty
chain, otherwise the loop rendering. -/
def LinkedList.display (s : α → String) (l : LinkedList α) : String :=
  match l.head with
  | [] => "None"
  | _ :: _ => displayLoop s l.head

/-- Modelled from the spec: the spec (section 4.4) lists bounds-checked
accessors `get(index)` / `set(index, value)` on the list surface, but no such
methods appear in the provided source file; per the spec they read or write
position `index` when `index` is within `[0, length)` and otherwise return
absent (`get`) or leave the list unchanged (`set`). -/
def LinkedList.get (l : LinkedList α) (i : Nat) : Option α :=
  if i < l.len then l.head[i]? else none

/-- Modelled from the spec: companion writer to `LinkedList.get`; see its
doc comment. -/
def LinkedList.set (l : LinkedList α) (i : Nat) (x : α) : LinkedList α :=
  if i < l.len then ⟨l.head.set i x, l.len⟩ else l

/-- The state after appending the elements of `v` in order, one
`LinkedList::append` call per element. -/
def LinkedList.appendAll (l : LinkedList α) (v : List α) : LinkedList α :=
  v.foldl (fun acc data => acc.append data) l

/-- The rendering the claim describes: each value's display followed by a
single space, with "-> " inserted between consecutive values. -/
def claimedRender (s : α → String) : List α → String
  | [] => ""
  | [x] => s x ++ " "
  | x :: y :: t => s x ++ " " ++ "-> " ++ claimedRender s (y :: t)

/-- The documented representation invariant (spec section 3): the stored
counter equals the number of reachable nodes, and the chain is empty exactly
when the counter is 0. -/
def LinkedList.Invariant (l : LinkedList α) : Prop :=
  l.len = l.head.length ∧ (l.head = [] ↔ l.len = 0)

/-- States reachable by sequences of public operations, starting from `new`
or `From<Vec>`.  Fallible operations contribute a successor state only when
they return one (a panicking call produces no state). -/
inductive LinkedList.Reachable {α : Type} : LinkedList α → Prop
  | new : LinkedList.Reachable LinkedList.new
  | append (l : LinkedList α) (x : α) :
      LinkedList.Reachable l → LinkedList.Reachable (l.append x)
  | prepend (l : LinkedList α) (x : α) :
      LinkedList.Reachable l → LinkedList.Reachable (l.prepend x)
  | insert (l : LinkedList α) (x : α) (i : Nat) (l2 : LinkedList α) :
      LinkedList.Reachable l → l.insert x i = some l2 → LinkedList.Reachable l2
  | remove (l : LinkedList α) (i : Nat) (l2 : LinkedList α) :
      LinkedList.Reachable l → l.remove i = some l2 → LinkedList.Reachable l2
  | clear (l : LinkedList α) :
      LinkedList.Reachable l → LinkedList.Reachable l.clear
  | pop_front (l : LinkedList α) :
      LinkedList.Reachable l → LinkedList.Reachable (l.pop_front).2
  | pop_last (l : LinkedList α) (r : Option α × LinkedList α) :
      LinkedList.Reachable l → l.pop_last = some r → LinkedList.Reachable r.2
  | reverse (l : LinkedList α) :
      LinkedList.Reachable l → LinkedList.Reachable l.reverse
  | fromVec (v : List α) : LinkedList.Reachable (LinkedList.fromVec v)

/-! ## Lemmas about the embedded operations -/

theorem appendAll_eq {α : Type} (v : List α) (l : LinkedList α) :
    LinkedList.appendAll l v = ⟨l.head ++ v, l.len + v.length⟩ := by
  induction v generalizing l with
  | nil => simp [LinkedList.appendAll]
  | cons x t ih =>
    show LinkedList.appendAll (l.append x) t = _
    rw [ih]
    simp [LinkedList.append, List.append_assoc, Nat.add_assoc, Nat.add_comm, Nat.add_left_comm]

theorem fromVec_eq {α : Type} (v : List α) :
    LinkedList.fromVec v = ⟨v, v.length⟩ := by
  have h : LinkedList.fromVec v = LinkedList.appendAll LinkedList.new v := rfl
  rw [h, appendAll_eq]
  simp [LinkedList.new]

theorem drainFrom_eq {α : Type} (v : List α) : drainFrom v = v := by
  induction v with
  | nil => rfl
  | cons x t ih => simp [drainFrom, ih]

theorem intoVec_eq {α : Type} (l : LinkedList α) : l.intoVec = l.head :=
  drainFrom_eq l.head

theorem revLoop_eq {α : Type} (v acc : List α) :
    LinkedList.revLoop v acc = v.reverse ++ acc := by
  induction v generalizing acc with
  | nil => simp [LinkedList.revLoop]
  | cons x t ih => simp [LinkedList.revLoop, ih]

theorem reverse_eq {α : Type} (l : LinkedList α) :
    l.reverse = if l.len ≤ 1 then l else ⟨l.head.reverse, l.len⟩ := by
  by_cases h : l.len ≤ 1
  · simp [LinkedList.reverse, h]
  · simp [LinkedList.reverse, h, revLoop_eq]

theorem index_eq {α : Type} (l : LinkedList α) (i : Nat) :
    LinkedList.index l i = l.head[i]? := by
  have h : LinkedList.index l i = (l.head.drop i).head? := by
    unfold LinkedList.index
    cases l.head.drop i <;> rfl
  rw [h, List.head?_drop]

/-! ## Claim theorems -/

/-- C1: the claimed invariant — the stored count equals the number of nodes
reachable from head, and head is none iff the count is zero — is NOT preserved
by every public operation: the state reached by new().append(1).append(2)
followed by remove(1) stores count 2 over a one-node chain, because
`LinkedList::remove` never decrements `len` on its splice path (lib.rs 198-207). -/
theorem remove_reaches_invariant_violation :
    LinkedList.Reachable (⟨[1], 2⟩ : LinkedList Nat) ∧
    ¬ LinkedList.Invariant (⟨[1], 2⟩ : LinkedList Nat) := by
  constructor
  · exact LinkedList.Reachable.remove _ 1 _
      (LinkedList.Reachable.append _ 2
        (LinkedList.Reachable.append _ 1 LinkedList.Reachable.new))
      (by decide)
  · intro h
    exact absurd h.1 (by decide)

/-- C2: remove(index) on a non-empty list does not always remove the element
at position min(index, length-1) with the length decreasing by 1: on the
one-element list [7], remove(1) panics (loop-bound underflow / unwrap of None,
lib.rs 199-206) instead of removing the tail, and on [1,2], remove(1) splices
out the node but leaves the stored length at 2. -/
theorem remove_singleton_panics_and_skips_len_decrement :
    LinkedList.remove (⟨[7], 1⟩ : LinkedList Nat) 1 = none ∧
    LinkedList.remove (⟨[1, 2], 2⟩ : LinkedList Nat) 1 = some ⟨[1], 2⟩ := by
  decide

/-- C3: remove(index) does not complete without fatal failure for every list
and index: on the reachable one-element list [7] (new().append(7)), remove(1)
panics — the clamp to length-1 = 0 happens only after the index == 0 check, so
the walk loop bound underflows and the unwrap at lib.rs 206 hits None. -/
theorem remove_out_of_range_fatal_on_singleton :
    LinkedList.Reachable (⟨[7], 1⟩ : LinkedList Nat) ∧
    LinkedList.remove (⟨[7], 1⟩ : LinkedList Nat) 1 = none := by
  constructor
  · exact LinkedList.Reachable.append _ 7 LinkedList.Reachable.new
  · decide

/-- C4: on a list satisfying the count invariant, the direct indexing accessor
returns the element at zero-based position i for every i < length, and panics
(modelled by `none`) for every i ≥ length. -/
theorem index_in_bounds_some_out_of_bounds_fatal (α : Type) (l : LinkedList α)
    (i : Nat) (hv : l.len = l.head.length) :
    (i < l.len → LinkedList.index l i = l.head[i]? ∧ (LinkedList.index l i).isSome = true) ∧
    (l.len ≤ i → LinkedList.index l i = none) := by
  have he : LinkedList.index l i = l.head[i]? := index_eq l i
  constructor
  · intro h
    refine ⟨he, ?_⟩
    rw [he, List.getElem?_eq_getElem (hv ▸ h)]
    rfl
  · intro h
    rw [he, List.getElem?_eq_none (hv ▸ h)]

/-- Witness for C4 at the list [10, 20, 30]. -/
theorem index_in_bounds_witness :
    LinkedList.index (⟨[10, 20, 30], 3⟩ : LinkedList Nat) 1 = some 20 ∧
    LinkedList.index (⟨[10, 20, 30], 3⟩ : LinkedList Nat) 5 = none := by
  have h1 := index_in_bounds_some_out_of_bounds_fatal Nat ⟨[10, 20, 30], 3⟩ 1 (by decide)
  have h5 := index_in_bounds_some_out_of_bounds_fatal Nat ⟨[10, 20, 30], 3⟩ 5 (by decide)
  exact ⟨(h1.1 (by decide)).1.trans (by decide), h5.2 (by decide)⟩

/-- C5: appending the elements of any sequence S in order into an empty list
yields a list whose borrowing iterator drains to exactly S and whose stored
length is the size of S. -/
theorem append_sequence_iterates_in_order (α : Type) (S : List α) :
    (LinkedList.appendAll LinkedList.new S).iter.drain = S ∧
    (LinkedList.appendAll LinkedList.new S).len = S.length := by
  have h : LinkedList.appendAll LinkedList.new S = ⟨S, S.length⟩ := by
    rw [appendAll_eq]
    simp [LinkedList.new]
  rw [h]
  exact ⟨drainFrom_eq S, rfl⟩

/-- C6: reverse is an involution on every list state; on a list satisfying the
count invariant a single reverse produces exactly the reversed element order
with the length unchanged, and a list of length at most 1 is unchanged. -/
theorem reverse_involution (α : Type) (l : LinkedList α) :
    l.reverse.reverse = l ∧
    (l.len = l.head.length →
      l.reverse.head = l.head.reverse ∧ l.reverse.len = l.len ∧
      (l.len ≤ 1 → l.reverse = l)) := by
  by_cases h : l.len ≤ 1
  · have hr : l.reverse = l := by
      rw [reverse_eq, if_pos h]
    refine ⟨by rw [hr, hr], fun hv => ⟨?_, by rw [hr], fun _ => hr⟩⟩
    rw [hr]
    rw [hv] at h
    match l, h with
    | ⟨[], _⟩, _ => rfl
    | ⟨[x], _⟩, _ => rfl
  · have hr : l.reverse = ⟨l.head.reverse, l.len⟩ := by
      rw [reverse_eq, if_neg h]
    have hr2 : l.reverse.reverse = l := by
      rw [hr, reverse_eq]
      rw [if_neg (by exact h)]
      cases l
      simp
    exact ⟨hr2, fun _ => ⟨by rw [hr], by rw [hr], fun h1 => absurd h1 h⟩⟩

/-- Witness for C6 at the list [1, 2]. -/
theorem reverse_involution_witness :
    (⟨[1, 2], 2⟩ : LinkedList Nat).reverse.head = [2, 1] := by
  have h := (reverse_involution Nat ⟨[1, 2], 2⟩).2 (by decide)
  exact h.1.trans (by decide)

/-- C7: building a list from a bulk sequence appends every element in order
(the chain equals the input and the stored length is the input length), the
list-to-sequence conversion drains the chain in traversal order, and both
round trips are the identity (list-side identity on any list satisfying the
count invariant). -/
theorem vec_roundtrip (α : Type) (v : List α) (l : LinkedList α) :
    LinkedList.intoVec (LinkedList.fromVec v) = v ∧
    (LinkedList.fromVec v).head = v ∧
    (LinkedList.fromVec v).len = v.length ∧
    (l.len = l.head.length → LinkedList.fromVec (LinkedList.intoVec l) = l) := by
  have hf : LinkedList.fromVec v = ⟨v, v.length⟩ := fromVec_eq v
  refine ⟨?_, by rw [hf], by rw [hf], ?_⟩
  · rw [hf]
    exact drainFrom_eq v
  · intro hv
    rw [intoVec_eq, fromVec_eq]
    cases l with
    | mk h n =>
      simp only at hv
      simp [hv]

/-- Witness for C7 at the list [1, 2]. -/
theorem vec_roundtrip_witness :
    LinkedList.fromVec (LinkedList.intoVec (⟨[1, 2], 2⟩ : LinkedList Nat)) = ⟨[1, 2], 2⟩ :=
  (vec_roundtrip Nat [] ⟨[1, 2], 2⟩).2.2.2 (by decide)

/-- C8: the spec-modelled accessors are tolerant and bounds-checked: on a list
satisfying the count invariant, get(i) returns the element at position i for
i < length and none otherwise, and set(i, x) rewrites exactly position i for
i < length and is a no-op otherwise. -/
theorem get_set_bounds_checked (α : Type) (l : LinkedList α) (i : Nat) (x : α)
    (hv : l.len = l.head.length) :
    (i < l.len → ∃ y, LinkedList.get l i = some y ∧ l.head[i]? = some y) ∧
    (l.len ≤ i → LinkedList.get l i = none) ∧
    (i < l.len → (LinkedList.set l i x).head = l.head.set i x ∧
      (LinkedList.set l i x).len = l.len) ∧
    (l.len ≤ i → LinkedList.set l i x = l) := by
  refine ⟨?_, ?_, ?_, ?_⟩
  · intro h
    refine ⟨l.head.get ⟨i, hv ▸ h⟩, ?_, ?_⟩
    · rw [LinkedList.get, if_pos h, List.getElem?_eq_getElem (hv ▸ h)]
      rfl
    · rw [List.getElem?_eq_getElem (hv ▸ h)]
      rfl
  · intro h
    rw [LinkedList.get, if_neg (by omega)]
  · intro h
    rw [LinkedList.set, if_pos h]
    exact ⟨rfl, rfl⟩
  · intro h
    rw [LinkedList.set, if_neg (by omega)]

/-- Witness for C8 at the list [4, 5]. -/
theorem get_set_bounds_checked_witness :
    LinkedList.get (⟨[4, 5], 2⟩ : LinkedList Nat) 3 = none ∧
    LinkedList.set (⟨[4, 5], 2⟩ : LinkedList Nat) 3 9 = ⟨[4, 5], 2⟩ ∧
    LinkedList.get (⟨[4, 5], 2⟩ : LinkedList Nat) 1 = some 5 := by
  have h3 := get_set_bounds_checked Nat ⟨[4, 5], 2⟩ 3 9 (by decide)
  have h1 := get_set_bounds_checked Nat ⟨[4, 5], 2⟩ 1 9 (by decide)
  refine ⟨h3.2.1 (by decide), h3.2.2.2 (by decide), ?_⟩
  obtain ⟨y, hy1, hy2⟩ := h1.1 (by decide)
  rw [hy1]
  have : some y = some 5 := by rw [← hy2]; decide
  exact this

theorem displayLoop_eq_claimedRender {α : Type} (s : α → String) :
    ∀ c : List α, displayLoop s c = claimedRender s c
  | [] => rfl
  | [x] => by
    show s x ++ " " ++ "" ++ displayLoop s [] = s x ++ " "
    show s x ++ " " ++ "" ++ "" = s x ++ " "
    rw [String.append_empty, String.append_empty]
  | x :: y :: t => by
    show s x ++ " " ++ "-> " ++ displayLoop s (y :: t) = s x ++ " " ++ "-> " ++ claimedRender s (y :: t)
    rw [displayLoop_eq_claimedRender s (y :: t)]

theorem claimedRender_trailing_space {α : Type} (s : α → String) :
    ∀ c : List α, c ≠ [] → ∃ t, claimedRender s c = t ++ " "
  | [], h => absurd rfl h
  | [x], _ => ⟨s x, rfl⟩
  | x :: y :: t, _ => by
    obtain ⟨t0, ht⟩ := claimedRender_trailing_space s (y :: t) (by simp)
    refine ⟨s x ++ " " ++ "-> " ++ t0, ?_⟩
    show s x ++ " " ++ "-> " ++ claimedRender s (y :: t) = s x ++ " " ++ "-> " ++ t0 ++ " "
    rw [ht, ← String.append_assoc]

/-- C10: the display rendering of the empty list is exactly "None"; a
non-empty list renders each value's display followed by a single space with
"-> " inserted between consecutive values, so the output ends in a trailing
space. -/
theorem display_rendering (α : Type) (s : α → String) (l : LinkedList α) :
    (l.head = [] → LinkedList.display s l = "None") ∧
    (l.head ≠ [] → LinkedList.display s l = claimedRender s l.head ∧
      ∃ t, LinkedList.display s l = t ++ " ") := by
  constructor
  · intro h
    rw [LinkedList.display, h]
  · intro h
    have hd : LinkedList.display s l = displayLoop s l.head := by
      rw [LinkedList.display]
      match l.head, h with
      | x :: rest, _ => rfl
    have he : LinkedList.display s l = claimedRender s l.head := by
      rw [hd, displayLoop_eq_claimedRender]
    refine ⟨he, ?_⟩
    obtain ⟨t, ht⟩ := claimedRender_trailing_space s l.head h
    exact ⟨t, he.trans ht⟩

/-- Witness for C10 at the lists [1, 2] and [1]. -/
theorem display_rendering_witness :
    LinkedList.display (fun n : Nat => toString n) ⟨[1, 2], 2⟩ = "1 -> 2 " ∧
    LinkedList.display (fun n : Nat => toString n) ⟨[1], 1⟩ = "1 " := by
  have h2 := (display_rendering Nat (fun n : Nat => toString n) ⟨[1, 2], 2⟩).2 (by simp)
  have h1 := (display_rendering Nat (fun n : Nat => toString n) ⟨[1], 1⟩).2 (by simp)
  exact ⟨h2.1.trans (by decide), h1.1.trans (by decide)⟩

/-- Witness for C5 at the sequence [1, 2, 3]. -/
theorem append_sequence_witness :
    (LinkedList.appendAll LinkedList.new [1, 2, 3]).iter.drain = [1, 2, 3] ∧
    (LinkedList.appendAll LinkedList.new [1, 2, 3]).len = 3 :=
  append_sequence_iterates_in_order Nat [1, 2, 3]
